import Mathlib

set_option maxHeartbeats 1000000

/-!
Verification of the music-library tree builder (`populate`) and cover-art
resolver (`update_art`) from `src/vfh/lib/src/music/utils.rs`, together with
the data model of `src/vfh/lib/src/music/node.rs`.

Filesystem paths (`PathBuf`) are modelled as lists of name components; the
filesystem primitives the code calls (`Path::is_dir`, `Path::exists`,
`std::fs::read_dir` plus per-entry resolution) are a record of abstract
functions, so every theorem quantifies over arbitrary filesystem behaviour.
`read_dir` failures and per-entry failures are modelled by `Except`.
-/

/-- Rust `PathBuf`, modelled as the list of its name components. -/
abbrev PathBuf := List String

/-- Rust `PathBuf::pop`: drop the last component (no-op on the empty path). -/
def PathBuf.pop (p : PathBuf) : PathBuf := p.dropLast

/-- Rust `PathBuf::new()` / `PathBuf::from("")`: the empty path. -/
def PathBuf.empty : PathBuf := []

/-- Rust `Path::file_stem` semantics on a single file name: the whole name if
it has no dot, or begins with its only dot; otherwise the part before the
last dot. -/
def stemOf (s : String) : String :=
  let cs := s.data
  let rsuf := cs.reverse.takeWhile (fun c => c ≠ '.')
  if rsuf.length = cs.length then s
  else
    let pre := cs.take (cs.length - rsuf.length - 1)
    if pre.isEmpty then s else String.mk pre

/-- Rust `Path::extension().unwrap_or("")` semantics on a single file name:
the part after the last dot, or `""` when there is no extension (no dot, or
the name begins with its only dot). -/
def extensionOf (s : String) : String :=
  let cs := s.data
  let rsuf := cs.reverse.takeWhile (fun c => c ≠ '.')
  if rsuf.length = cs.length then ""
  else
    let pre := cs.take (cs.length - rsuf.length - 1)
    if pre.isEmpty then "" else String.mk rsuf.reverse

/-- Rust `Path::file_stem().unwrap_or(OsStr::new(""))` on a whole path: the
stem of the last component, `""` for the empty path.  `to_string_lossy` is
the identity here since components are already text. -/
def PathBuf.fileStem (p : PathBuf) : String :=
  match p.getLast? with
  | some s => stemOf s
  | none => ""

/-- Rust `Path::extension().unwrap_or(..)` on a whole path: the extension of
the last component, `""` for the empty path. -/
def PathBuf.extensionD (p : PathBuf) : String :=
  match p.getLast? with
  | some s => extensionOf s
  | none => ""

/-- The filesystem-access primitives used by the code, as abstract functions.
`is_dir` and `path_exists` are boolean exactly as Rust's `Path::is_dir` and
`Path::exists` are (checks that cannot be performed read as `false`);
`read_dir` either fails as a whole or yields the directory's entries in
listing order, each entry itself possibly failing to resolve. -/
structure FS where
  is_dir : PathBuf → Bool
  path_exists : PathBuf → Bool
  read_dir : PathBuf → Except Unit (List (Except Unit PathBuf))

/-- The `Entry` struct of `node.rs`: source path, resolved art path, parent
display name, and the child mapping (`Node = BTreeMap<String, Entry>`). -/
inductive Entry : Type where
  | mk : PathBuf → PathBuf → String → List (String × Entry) → Entry

/-- The `Node` type of `node.rs`: a mapping from display names to entries,
modelled as an association list with unique keys. -/
abbrev Node := List (String × Entry)

/-- Rust `Node::new()`: the empty mapping. -/
def Node.new : Node := []

/-- Field `src` of `Entry`. -/
def Entry.src : Entry → PathBuf
  | Entry.mk s _ _ _ => s

/-- Field `art` of `Entry`. -/
def Entry.art : Entry → PathBuf
  | Entry.mk _ a _ _ => a

/-- Field `parent` of `Entry`. -/
def Entry.parent : Entry → String
  | Entry.mk _ _ q _ => q

/-- Field `child` of `Entry`. -/
def Entry.child : Entry → Node
  | Entry.mk _ _ _ c => c

/-- Replace the `child` field of an `Entry` (the effect of mutating the
`child` field through a `&mut` reference). -/
def Entry.setChild : Entry → Node → Entry
  | Entry.mk s a q _, c => Entry.mk s a q c

/-- Rust `Entry::default()` from `node.rs`: empty paths, empty parent name,
empty child mapping. -/
def Entry.default : Entry := Entry.mk PathBuf.empty PathBuf.empty "" Node.new

/-- Rust `BTreeMap::get` / `get_mut` by key.  The association lists built by
`populate` have unique keys, so the first match is the binding. -/
def Node.find? : Node → String → Option Entry
  | [], _ => none
  | (k, e) :: rest, q => if k = q then some e else Node.find? rest q

/-- Rust `BTreeMap::insert`: replace the value at an existing key, otherwise
add a new binding.  (A `BTreeMap` iterates in key order; no claim here
depends on iteration order, so the new binding's position is immaterial.) -/
def Node.insert : Node → String → Entry → Node
  | [], q, e => [(q, e)]
  | (k, f) :: rest, q, e =>
      if k = q then (q, e) :: rest else (k, f) :: Node.insert rest q e

/-- The fixed candidate art-extension list of `update_art`, in priority
order. -/
def art_exts : List String :=
  [".webp", ".apng", ".gif", ".avif", ".svg", ".png", ".jpeg", ".jpg"]

/-- The audio-extension allow-list of `populate`. -/
def audio_exts : List String := ["mp3", "ogg", "opus", "wav", "aac", "flac"]

/-- The first loop of `update_art` ("check if child node has a corresponding
art file first"): per candidate extension, derive the stem of `pb` (breaking
out of the loop when it is empty), form the candidate `<stem><ext>` inside
`pb` when `pb` is a directory and alongside `pb` (after `pop`) otherwise,
and return the first candidate that exists. -/
def searchSelf (fs : FS) (pb : PathBuf) : List String → Option PathBuf
  | [] => none
  | ext :: rest =>
    let name := PathBuf.fileStem pb
    if name = "" then none
    else
      let p := if fs.is_dir pb then pb ++ [name ++ ext]
               else PathBuf.pop pb ++ [name ++ ext]
      if fs.path_exists p then some p else searchSelf fs pb rest

/-- The second loop of `update_art` ("check if parent node has a
corresponding art file"): per candidate extension, derive the stem of the
(already popped) path `pb` (breaking out when empty), form `<stem><ext>`
pushed onto `pb` with no directory check, and return the first candidate
that exists. -/
def searchParent (fs : FS) (pb : PathBuf) : List String → Option PathBuf
  | [] => none
  | ext :: rest =>
    let name := PathBuf.fileStem pb
    if name = "" then none
    else
      let p := pb ++ [name ++ ext]
      if fs.path_exists p then some p else searchParent fs pb rest

/-- Rust `update_art` from `utils.rs`: self-search over the candidate
extensions, then (after `pb.pop()`) the parent-level search, then the empty
path as the no-art default. -/
def update_art (fs : FS) (path : PathBuf) : PathBuf :=
  match searchSelf fs path art_exts with
  | some p => p
  | none =>
    match searchParent fs (PathBuf.pop path) art_exts with
    | some p => p
    | none => PathBuf.empty

/-- The body of `populate`'s `for entry in read_dir(&dir)?` loop, abstracted
over the recursive call `rec` (which `populate` instantiates with itself on
one less unit of fuel).  Entry resolution failure (`entry?`) aborts with the
error; a directory child is inserted and then recursed into through
`node.get_mut(&name).unwrap_or(&mut Entry::default()).child` (the mutation
is kept only when `get_mut` succeeded, mirroring the discarded temporary of
`unwrap_or`); a file child is inserted only when its extension is in the
audio allow-list. -/
def populateEntsF (fs : FS) (rec : PathBuf → Node → Node × Except Unit Unit)
    (dir : PathBuf) : List (Except Unit PathBuf) → Node → Node × Except Unit Unit
  | [], node => (node, Except.ok ())
  | Except.error er :: _, node => (node, Except.error er)
  | Except.ok path :: rest, node =>
    if fs.is_dir path then
      let name := PathBuf.fileStem path
      let parent := PathBuf.fileStem dir
      let next_entry := Entry.mk path (update_art fs path) parent Node.new
      let node1 := Node.insert node name next_entry
      let e := (Node.find? node1 name).getD Entry.default
      let r := rec path (Entry.child e)
      let node2 := if (Node.find? node1 name).isSome
                   then Node.insert node1 name (Entry.setChild e r.fst)
                   else node1
      match r.snd with
      | Except.error er => (node2, Except.error er)
      | Except.ok _ => populateEntsF fs rec dir rest node2
    else
      if audio_exts.contains (PathBuf.extensionD path) then
        populateEntsF fs rec dir rest
          (Node.insert node (PathBuf.fileStem path)
            (Entry.mk path (update_art fs path) (PathBuf.fileStem dir) Node.new))
      else
        populateEntsF fs rec dir rest node

/-- Rust `populate` from `utils.rs`, with a fuel parameter bounding the
recursion depth (any real directory tree is finite; exhausted fuel is
reported as an error, never as silent success).  A non-directory `dir`
returns `Ok(())` with the node untouched; a failing `read_dir` propagates
the error; otherwise the entries are processed in listing order. -/
def populate (fs : FS) : Nat → PathBuf → Node → Node × Except Unit Unit
  | 0, dir, node =>
      if fs.is_dir dir then (node, Except.error ()) else (node, Except.ok ())
  | fuel + 1, dir, node =>
    if fs.is_dir dir then
      match fs.read_dir dir with
      | Except.error er => (node, Except.error er)
      | Except.ok ents => populateEntsF fs (populate fs fuel) dir ents node
    else (node, Except.ok ())

example : stemOf "song.mp3" = "song" := by decide
example : stemOf ".hidden" = ".hidden" := by decide
example : stemOf "a.b.c" = "a.b" := by decide
example : extensionOf "song.mp3" = "mp3" := by decide
example : extensionOf ".hidden" = "" := by decide
example : extensionOf "noext" = "" := by decide
example : PathBuf.fileStem ["Music", "ArtistA"] = "ArtistA" := by decide
example : PathBuf.fileStem [] = "" := by decide

/-- Looking up the key just inserted always yields the inserted entry (the
`BTreeMap` law behind the `get_mut` immediately after `insert` in
`populate`). -/
theorem find?_insert_self (n : Node) (k : String) (e : Entry) :
    Node.find? (Node.insert n k e) k = some e := by
  induction n with
  | nil => simp [Node.insert, Node.find?]
  | cons hd rest ih =>
    obtain ⟨k', e'⟩ := hd
    by_cases h : k' = k
    · simp [Node.insert, Node.find?, h]
    · simp [Node.insert, Node.find?, h, ih]

/-- A successful lookup in an updated mapping is either the new binding or a
binding of the original mapping. -/
theorem find?_insert_cases {n : Node} {k q : String} {e f : Entry}
    (h : Node.find? (Node.insert n k e) q = some f) :
    (q = k ∧ f = e) ∨ Node.find? n q = some f := by
  induction n with
  | nil =>
    simp only [Node.insert, Node.find?] at h
    by_cases hq : k = q
    · rw [if_pos hq] at h
      exact Or.inl ⟨hq.symm, (Option.some_inj.mp h).symm⟩
    · rw [if_neg hq] at h
      exact absurd h (by simp)
  | cons hd rest ih =>
    obtain ⟨k', e'⟩ := hd
    by_cases hk : k' = k
    · simp only [Node.insert] at h
      rw [if_pos hk] at h
      simp only [Node.find?] at h ⊢
      by_cases hq : k = q
      · rw [if_pos hq] at h
        exact Or.inl ⟨hq.symm, (Option.some_inj.mp h).symm⟩
      · rw [if_neg hq] at h
        rw [if_neg (by rw [hk]; exact hq)]
        exact Or.inr h
    · simp only [Node.insert] at h
      rw [if_neg hk] at h
      simp only [Node.find?] at h ⊢
      by_cases hq : k' = q
      · rw [if_pos hq] at h ⊢
        exact Or.inr h
      · rw [if_neg hq] at h ⊢
        exact ih h

/-- Re-inserting at the same key overwrites the previous insertion. -/
theorem insert_insert (n : Node) (k : String) (e f : Entry) :
    Node.insert (Node.insert n k e) k f = Node.insert n k f := by
  induction n with
  | nil => simp [Node.insert]
  | cons hd rest ih =>
    obtain ⟨k', e'⟩ := hd
    by_cases h : k' = k
    · simp [Node.insert, h]
    · simp [Node.insert, h, ih]

/-- One step of the `populate` loop on a subdirectory entry: the child entry
is inserted (empty children, art and parent resolved at creation), the
recursion runs on the just-inserted entry's `child` field (which is empty),
its result is installed into that same entry, and an error from the
recursion aborts the loop while success continues with the rest. -/
theorem entsF_dir_step (fs : FS) (rec : PathBuf → Node → Node × Except Unit Unit)
    (dir p : PathBuf) (rest : List (Except Unit PathBuf)) (node : Node)
    (hd : fs.is_dir p = true) :
    populateEntsF fs rec dir (Except.ok p :: rest) node =
      match (rec p Node.new).snd with
      | Except.error er =>
        (Node.insert node (PathBuf.fileStem p)
          (Entry.mk p (update_art fs p) (PathBuf.fileStem dir) (rec p Node.new).fst),
         Except.error er)
      | Except.ok _ =>
        populateEntsF fs rec dir rest
          (Node.insert node (PathBuf.fileStem p)
            (Entry.mk p (update_art fs p) (PathBuf.fileStem dir) (rec p Node.new).fst)) := by
  have hf := find?_insert_self node (PathBuf.fileStem p)
    (Entry.mk p (update_art fs p) (PathBuf.fileStem dir) Node.new)
  simp only [populateEntsF, hd, if_true, hf, Option.getD_some, Option.isSome_some,
    Entry.child, Entry.setChild, insert_insert]

/-- One step of the `populate` loop on a non-directory entry: no recursion
happens; a leaf entry is inserted exactly when the extension is in the audio
allow-list, and otherwise the node is left as it was. -/
theorem entsF_file_step (fs : FS) (rec : PathBuf → Node → Node × Except Unit Unit)
    (dir p : PathBuf) (rest : List (Except Unit PathBuf)) (node : Node)
    (hd : fs.is_dir p = false) :
    populateEntsF fs rec dir (Except.ok p :: rest) node =
      populateEntsF fs rec dir rest
        (if audio_exts.contains (PathBuf.extensionD p)
         then Node.insert node (PathBuf.fileStem p)
           (Entry.mk p (update_art fs p) (PathBuf.fileStem dir) Node.new)
         else node) := by
  cases hc : audio_exts.contains (PathBuf.extensionD p) with
  | true =>
    simp only [populateEntsF]
    rw [if_neg (by simp [hd]), hc]
    simp
  | false =>
    simp only [populateEntsF]
    rw [if_neg (by simp [hd]), hc]
    simp

/-- Whatever the self-search loop returns was checked to exist. -/
theorem searchSelf_path_exists (fs : FS) (pb : PathBuf) :
    ∀ (exts : List String) (q : PathBuf),
      searchSelf fs pb exts = some q → fs.path_exists q = true := by
  intro exts
  induction exts with
  | nil => intro q h; simp [searchSelf] at h
  | cons ext rest ih =>
    intro q h
    simp only [searchSelf] at h
    by_cases hs : PathBuf.fileStem pb = ""
    · simp [hs] at h
    · rw [if_neg hs] at h
      cases hex : fs.path_exists (if fs.is_dir pb then pb ++ [PathBuf.fileStem pb ++ ext]
          else PathBuf.pop pb ++ [PathBuf.fileStem pb ++ ext]) with
      | true =>
        simp only [hex, if_true] at h
        cases h
        exact hex
      | false =>
        simp only [hex] at h
        exact ih q h

/-- Whatever the parent-search loop returns was checked to exist. -/
theorem searchParent_path_exists (fs : FS) (pb : PathBuf) :
    ∀ (exts : List String) (q : PathBuf),
      searchParent fs pb exts = some q → fs.path_exists q = true := by
  intro exts
  induction exts with
  | nil => intro q h; simp [searchParent] at h
  | cons ext rest ih =>
    intro q h
    simp only [searchParent] at h
    by_cases hs : PathBuf.fileStem pb = ""
    · simp [hs] at h
    · rw [if_neg hs] at h
      cases hex : fs.path_exists (pb ++ [PathBuf.fileStem pb ++ ext]) with
      | true =>
        simp only [hex, if_true] at h
        cases h
        exact hex
      | false =>
        simp only [hex] at h
        exact ih q h

/-- Occurrence of an entry at any depth of a tree, paired with the path of
the directory whose enumeration created it: `Deep d n (d', e)` holds when
`e` occurs somewhere in the tree `n` (a tree whose own enumerated directory
is `d`), and `d'` is the directory immediately containing `e`.  A nested
level's containing directory is the `src` path of the entry owning it. -/
inductive Deep : PathBuf → Node → PathBuf × Entry → Prop where
  | here : ∀ (d : PathBuf) (n : Node) (k : String) (e : Entry),
      Node.find? n k = some e → Deep d n (d, e)
  | nest : ∀ (d : PathBuf) (n : Node) (k : String) (e : Entry) (pe : PathBuf × Entry),
      Node.find? n k = some e → Deep (Entry.src e) (Entry.child e) pe → Deep d n pe

/-- The per-entry invariant established by `populate`: the `parent` field is
the file stem of the immediately containing directory, and an entry whose
source path is not a directory has an empty child mapping. -/
def EntryOk (fs : FS) (pe : PathBuf × Entry) : Prop :=
  Entry.parent pe.2 = PathBuf.fileStem pe.1 ∧
  (fs.is_dir (Entry.src pe.2) = false → Entry.child pe.2 = Node.new)

/-- Every entry at any depth of the tree satisfies `EntryOk`. -/
def TreeOk (fs : FS) (d : PathBuf) (n : Node) : Prop :=
  ∀ pe, Deep d n pe → EntryOk fs pe

/-- The empty tree vacuously satisfies the invariant. -/
theorem TreeOk_nil (fs : FS) (d : PathBuf) : TreeOk fs d Node.new := by
  intro pe h
  cases h with
  | here _ _ k e hf => exact absurd hf (by simp [Node.new, Node.find?])
  | nest _ _ k e pe' hf _ => exact absurd hf (by simp [Node.new, Node.find?])

/-- An occurrence in an updated tree is an occurrence in the original tree,
the new binding itself, or an occurrence below the new binding. -/
theorem Deep_insert_cases {d : PathBuf} {n : Node} {k : String} {e : Entry}
    {pe : PathBuf × Entry} (h : Deep d (Node.insert n k e) pe) :
    Deep d n pe ∨ pe = (d, e) ∨ Deep (Entry.src e) (Entry.child e) pe := by
  cases h with
  | here =>
    rename_i k' e' hf
    rcases find?_insert_cases hf with ⟨hq, he⟩ | hold
    · exact Or.inr (Or.inl (by rw [he]))
    · exact Or.inl (Deep.here d n k' e' hold)
  | nest =>
    rename_i k' e' hf hdeep
    rcases find?_insert_cases hf with ⟨hq, he⟩ | hold
    · subst he
      exact Or.inr (Or.inr hdeep)
    · exact Or.inl (Deep.nest d n k' e' pe hold hdeep)

/-- Inserting a binding that satisfies the invariant (and whose subtree
does) preserves the invariant. -/
theorem TreeOk_insert {fs : FS} {d : PathBuf} {n : Node} {k : String} {e : Entry}
    (hn : TreeOk fs d n) (he : EntryOk fs (d, e))
    (hc : TreeOk fs (Entry.src e) (Entry.child e)) :
    TreeOk fs d (Node.insert n k e) := by
  intro pe h
  rcases Deep_insert_cases h with h1 | h2 | h3
  · exact hn pe h1
  · rw [h2]
    exact he
  · exact hc pe h3

/-- Processing a directory listing preserves the invariant, provided the
recursive call does. -/
theorem entsF_ok (fs : FS) (rec : PathBuf → Node → Node × Except Unit Unit)
    (dir : PathBuf)
    (hrec : ∀ p m, TreeOk fs p m → TreeOk fs p (rec p m).fst) :
    ∀ (ents : List (Except Unit PathBuf)) (node : Node),
      TreeOk fs dir node → TreeOk fs dir (populateEntsF fs rec dir ents node).fst := by
  intro ents
  induction ents with
  | nil =>
    intro node h
    simpa [populateEntsF] using h
  | cons ent rest ih =>
    intro node h
    match ent with
    | Except.error er => simpa [populateEntsF] using h
    | Except.ok path =>
      cases hd : fs.is_dir path with
      | true =>
        rw [entsF_dir_step fs rec dir path rest node hd]
        have hnode2 : TreeOk fs dir (Node.insert node (PathBuf.fileStem path)
            (Entry.mk path (update_art fs path) (PathBuf.fileStem dir)
              (rec path Node.new).fst)) := by
          apply TreeOk_insert h
          · constructor
            · rfl
            · intro hfalse
              simp [Entry.src, hd] at hfalse
          · exact hrec path Node.new (TreeOk_nil fs path)
        cases hr : (rec path Node.new).snd with
        | error er =>
          simp only [hr]
          exact hnode2
        | ok u =>
          simp only [hr]
          exact ih _ hnode2
      | false =>
        rw [entsF_file_step fs rec dir path rest node hd]
        apply ih
        by_cases hc : audio_exts.contains (PathBuf.extensionD path) = true
        · rw [if_pos hc]
          apply TreeOk_insert h
          · exact ⟨rfl, fun _ => rfl⟩
          · exact TreeOk_nil fs path
        · rw [if_neg hc]
          exact h

/-- The whole traversal preserves the invariant, for every fuel bound. -/
theorem populate_ok (fs : FS) :
    ∀ (fuel : Nat) (dir : PathBuf) (node : Node),
      TreeOk fs dir node → TreeOk fs dir (populate fs fuel dir node).fst := by
  intro fuel
  induction fuel with
  | zero =>
    intro dir node h
    cases hd : fs.is_dir dir <;> simpa [populate, hd] using h
  | succ m ih =>
    intro dir node h
    cases hd : fs.is_dir dir with
    | false => simpa [populate, hd] using h
    | true =>
      have hstep : populate fs (m + 1) dir node =
          match fs.read_dir dir with
          | Except.error er => (node, Except.error er)
          | Except.ok ents => populateEntsF fs (populate fs m) dir ents node := by
        simp [populate, hd]
      rw [hstep]
      cases hr : fs.read_dir dir with
      | error er =>
        simp only [hr]
        exact h
      | ok ents =>
        simp only [hr]
        exact entsF_ok fs (populate fs m) dir (fun p mm hm => ih p mm hm) ents node h

/-- A trivial recursion argument used to exercise the loop body on file
entries (where the recursion is never consulted). -/
def recW : PathBuf → Node → Node × Except Unit Unit := fun _ n => (n, Except.ok ())

/-- A filesystem with a single directory `d`; `d/a.mp3` is listed but no
path exists and nothing else is a directory. -/
def fsW1 : FS :=
  FS.mk (fun p => decide (p = ["d"])) (fun _ => false) (fun _ => Except.error ())

/-- A filesystem with nothing in it at all. -/
def fsW5 : FS :=
  FS.mk (fun _ => false) (fun _ => false) (fun _ => Except.error ())

/-- C1: a file in a directory processed by `populate` produces a leaf entry
exactly when its extension (compared case-sensitively) is in the audio
allow-list `mp3, ogg, opus, wav, aac, flac`; any other file is skipped with
no error and no binding recorded. -/
theorem populate_audio_only (fs : FS)
    (rec : PathBuf → Node → Node × Except Unit Unit) (dir p : PathBuf)
    (node : Node) (hd : fs.is_dir p = false) :
    populateEntsF fs rec dir [Except.ok p] node =
      (if audio_exts.contains (PathBuf.extensionD p)
       then Node.insert node (PathBuf.fileStem p)
         (Entry.mk p (update_art fs p) (PathBuf.fileStem dir) Node.new)
       else node, Except.ok ()) ∧
    (Node.find? node (PathBuf.fileStem p) = none →
      ((Node.find? (populateEntsF fs rec dir [Except.ok p] node).fst
          (PathBuf.fileStem p)).isSome = true ↔
        audio_exts.contains (PathBuf.extensionD p) = true)) := by
  have hstep := entsF_file_step fs rec dir p [] node hd
  constructor
  · rw [hstep]
    rfl
  · intro hnone
    rw [hstep]
    cases hc : audio_exts.contains (PathBuf.extensionD p) with
    | true => simp [populateEntsF, find?_insert_self]
    | false => simp [populateEntsF, hnone]

/-- C1 witness: `d/a.mp3` is inserted as a leaf keyed by its stem. -/
theorem populate_audio_only_witness :
    populateEntsF fsW1 recW ["d"] [Except.ok ["d", "a.mp3"]] Node.new =
      (if audio_exts.contains (PathBuf.extensionD ["d", "a.mp3"])
       then Node.insert Node.new (PathBuf.fileStem ["d", "a.mp3"])
         (Entry.mk ["d", "a.mp3"] (update_art fsW1 ["d", "a.mp3"])
           (PathBuf.fileStem ["d"]) Node.new)
       else Node.new, Except.ok ()) ∧
    ((Node.find? (populateEntsF fsW1 recW ["d"] [Except.ok ["d", "a.mp3"]] Node.new).fst
        (PathBuf.fileStem ["d", "a.mp3"])).isSome = true ↔
      audio_exts.contains (PathBuf.extensionD ["d", "a.mp3"]) = true) := by
  have h := populate_audio_only fsW1 recW ["d"] ["d", "a.mp3"] Node.new (by rfl)
  exact ⟨h.1, h.2 (by rfl)⟩

/-- The filesystem of the C3 witness: `m/x` is a directory holding
`song.mp3` and the art file `x.jpg`; the song has no sibling art. -/
def fsW3 : FS :=
  FS.mk
    (fun p => decide (p = ["m"] ∨ p = ["m", "x"]))
    (fun p => decide (p = ["m"] ∨ p = ["m", "x"] ∨ p = ["m", "x", "x.jpg"] ∨
      p = ["m", "x", "song.mp3"]))
    (fun _ => Except.error ())

/-- C3: when self-search fails, `update_art` falls back to exactly one
level up — the popped path — searching inside it for `<parent-stem><ext>`
in priority order (skipped when the parent stem is empty); in particular a
leaf with no sibling art whose parent directory holds `<parent-stem>.jpg`
(and none of the higher-priority candidates) resolves to that file. -/
theorem update_art_parent_fallback (fs : FS) (p : PathBuf) :
    (searchSelf fs p art_exts = none →
      update_art fs p =
        (match searchParent fs (PathBuf.pop p) art_exts with
         | some q => q
         | none => PathBuf.empty)) ∧
    (PathBuf.fileStem (PathBuf.pop p) = "" →
      searchParent fs (PathBuf.pop p) art_exts = none) ∧
    (searchSelf fs p art_exts = none →
      PathBuf.fileStem (PathBuf.pop p) ≠ "" →
      (∀ ext ∈ [".webp", ".apng", ".gif", ".avif", ".svg", ".png", ".jpeg"],
        fs.path_exists (PathBuf.pop p ++ [PathBuf.fileStem (PathBuf.pop p) ++ ext]) = false) →
      fs.path_exists (PathBuf.pop p ++ [PathBuf.fileStem (PathBuf.pop p) ++ ".jpg"]) = true →
      update_art fs p = PathBuf.pop p ++ [PathBuf.fileStem (PathBuf.pop p) ++ ".jpg"]) := by
  refine ⟨?_, ?_, ?_⟩
  · intro h
    simp only [update_art, h]
  · intro h
    simp [art_exts, searchParent, h]
  · intro h1 h2 hexts hjpg
    have e1 := hexts ".webp" (by simp)
    have e2 := hexts ".apng" (by simp)
    have e3 := hexts ".gif" (by simp)
    have e4 := hexts ".avif" (by simp)
    have e5 := hexts ".svg" (by simp)
    have e6 := hexts ".png" (by simp)
    have e7 := hexts ".jpeg" (by simp)
    have hsp : searchParent fs (PathBuf.pop p) art_exts =
        some (PathBuf.pop p ++ [PathBuf.fileStem (PathBuf.pop p) ++ ".jpg"]) := by
      simp [art_exts, searchParent, h2, e1, e2, e3, e4, e5, e6, e7, hjpg]
    simp only [update_art, h1, hsp]

/-- C3 witness: `m/x/song.mp3` has no sibling art; `m/x/x.jpg` exists, so
the leaf resolves to it through the parent fallback. -/
theorem update_art_parent_fallback_witness :
    update_art fsW3 ["m", "x", "song.mp3"] = ["m", "x", "x.jpg"] := by
  have h := (update_art_parent_fallback fsW3 ["m", "x", "song.mp3"]).2.2
    (by decide) (by decide) (by decide) (by decide)
  exact h.trans (by decide)

/-- The filesystem of the C4 claim, literally as described: directory `d`
holds the files `cover.png` and `cover.webp` alongside a subdirectory
`cover`. -/
def fsC4 : FS :=
  FS.mk
    (fun p => decide (p = ["d"] ∨ p = ["d", "cover"]))
    (fun p => decide (p = ["d"] ∨ p = ["d", "cover"] ∨ p = ["d", "cover.png"] ∨
      p = ["d", "cover.webp"]))
    (fun _ => Except.error ())

/-- The C4 setting with the art files placed inside the subdirectory
`d/cover` instead of alongside it. -/
def fsC4in : FS :=
  FS.mk
    (fun p => decide (p = ["d"] ∨ p = ["d", "cover"]))
    (fun p => decide (p = ["d"] ∨ p = ["d", "cover"] ∨
      p = ["d", "cover", "cover.png"] ∨ p = ["d", "cover", "cover.webp"]))
    (fun _ => Except.error ())

/-- C4 counterexample: with `cover.png` and `cover.webp` alongside the
subdirectory `cover` (not inside it), art resolution for the subdirectory
finds neither — it searches inside a directory path — and returns the empty
path, not the sibling `.webp` path the claim promises. -/
theorem update_art_precedence_counterexample :
    fsC4.is_dir ["d", "cover"] = true ∧
    fsC4.path_exists ["d", "cover.png"] = true ∧
    fsC4.path_exists ["d", "cover.webp"] = true ∧
    update_art fsC4 ["d", "cover"] = PathBuf.empty ∧
    update_art fsC4 ["d", "cover"] ≠ ["d", "cover.webp"] := by decide

/-- C4 amended: for a directory whose own contents include the
`<stem>.webp` candidate, self-search returns that `.webp` path — `webp` is
first in the priority order, so it wins over any coexisting `<stem>.png`. -/
theorem update_art_precedence_amended (fs : FS) (p : PathBuf)
    (hd : fs.is_dir p = true) (hstem : PathBuf.fileStem p ≠ "")
    (hpng : fs.path_exists (p ++ [PathBuf.fileStem p ++ ".png"]) = true)
    (hwebp : fs.path_exists (p ++ [PathBuf.fileStem p ++ ".webp"]) = true) :
    update_art fs p = p ++ [PathBuf.fileStem p ++ ".webp"] := by
  have hss : searchSelf fs p art_exts = some (p ++ [PathBuf.fileStem p ++ ".webp"]) := by
    simp [art_exts, searchSelf, hstem, hd, hwebp]
  simp only [update_art, hss]

/-- C4 witness: with `cover.png` and `cover.webp` inside `d/cover`,
resolution returns `d/cover/cover.webp`. -/
theorem update_art_precedence_amended_witness :
    update_art fsC4in ["d", "cover"] = ["d", "cover", "cover.webp"] := by
  have h := update_art_precedence_amended fsC4in ["d", "cover"]
    (by decide) (by decide) (by decide) (by decide)
  exact h.trans (by decide)

/-- C5: `update_art` is total and never propagates a failure: its result is
either the empty no-art sentinel or a path that passed the existence check,
and when both search phases find nothing it is exactly the empty path. -/
theorem update_art_total (fs : FS) (p : PathBuf) :
    (update_art fs p = PathBuf.empty ∨ fs.path_exists (update_art fs p) = true) ∧
    (searchSelf fs p art_exts = none →
      searchParent fs (PathBuf.pop p) art_exts = none →
      update_art fs p = PathBuf.empty) := by
  constructor
  · cases hs : searchSelf fs p art_exts with
    | some q =>
      right
      simp only [update_art, hs]
      exact searchSelf_path_exists fs p art_exts q hs
    | none =>
      cases hp : searchParent fs (PathBuf.pop p) art_exts with
      | some q =>
        right
        simp only [update_art, hs, hp]
        exact searchParent_path_exists fs (PathBuf.pop p) art_exts q hp
      | none =>
        left
        simp [update_art, hs, hp]
  · intro h1 h2
    simp [update_art, h1, h2]

/-- C5 witness: on a filesystem where nothing exists, both phases fail and
the result is the empty path. -/
theorem update_art_total_witness :
    (update_art fsW5 ["a"] = PathBuf.empty ∨
      fsW5.path_exists (update_art fsW5 ["a"]) = true) ∧
    update_art fsW5 ["a"] = PathBuf.empty := by
  have h := update_art_total fsW5 ["a"]
  exact ⟨h.1, h.2 (by decide) (by decide)⟩

/-- The filesystem of the C2 scenario, literally as claimed: `Music/`
contains the directory `ArtistA` and the file `ArtistA.png`; `ArtistA`
contains `Album1`; `Album1` contains `song.mp3`. -/
def fsC2 : FS :=
  FS.mk
    (fun p => decide (p = ["Music"] ∨ p = ["Music", "ArtistA"] ∨
      p = ["Music", "ArtistA", "Album1"]))
    (fun p => decide (p = ["Music"] ∨ p = ["Music", "ArtistA"] ∨
      p = ["Music", "ArtistA", "Album1"] ∨ p = ["Music", "ArtistA.png"] ∨
      p = ["Music", "ArtistA", "Album1", "song.mp3"]))
    (fun p =>
      if p = ["Music"] then
        Except.ok [Except.ok ["Music", "ArtistA"], Except.ok ["Music", "ArtistA.png"]]
      else if p = ["Music", "ArtistA"] then
        Except.ok [Except.ok ["Music", "ArtistA", "Album1"]]
      else if p = ["Music", "ArtistA", "Album1"] then
        Except.ok [Except.ok ["Music", "ArtistA", "Album1", "song.mp3"]]
      else Except.error ())

/-- The leaf entry `populate` actually builds for `song.mp3` in the C2
scenario: no art is found (the parent fallback only reaches `Album1`). -/
def entSong : Entry :=
  Entry.mk ["Music", "ArtistA", "Album1", "song.mp3"] PathBuf.empty "Album1" Node.new

/-- The entry `populate` actually builds for `Album1`: no art (the fallback
looks for `ArtistA.<ext>` inside `ArtistA`, which holds nothing). -/
def entAlbum : Entry :=
  Entry.mk ["Music", "ArtistA", "Album1"] PathBuf.empty "ArtistA" [("song", entSong)]

/-- The entry `populate` actually builds for `ArtistA`: no art — the
self-search looks for `ArtistA.<ext>` inside `ArtistA`, not among its
siblings, so `Music/ArtistA.png` is never consulted. -/
def entArtist : Entry :=
  Entry.mk ["Music", "ArtistA"] PathBuf.empty "Music" [("Album1", entAlbum)]

/-- The tree `populate` actually builds in the C2 scenario. -/
def treeC2 : Node := [("ArtistA", entArtist)]

/-- C2 counterexample: in the claimed scenario, the `ArtistA` entry's art
path is not `Music/ArtistA.png` (it is the empty no-art path), and neither
is the `song` leaf's. -/
theorem populate_scenario_counterexample :
    (Node.find? (populate fsC2 5 ["Music"] Node.new).fst "ArtistA").map Entry.art ≠
      some ["Music", "ArtistA.png"] ∧
    ((Node.find? (populate fsC2 5 ["Music"] Node.new).fst "ArtistA").map
      (fun e => (Node.find? (Entry.child e) "Album1").map
        (fun a => (Node.find? (Entry.child a) "song").map Entry.art))) ≠
      some (some (some ["Music", "ArtistA.png"])) := by
  constructor
  · decide
  · intro h
    rw [show (populate fsC2 5 ["Music"] Node.new).fst = treeC2 from rfl] at h
    revert h
    decide

/-- C2 amended: the built tree does have the claimed shape — key `ArtistA`,
child `Album1`, grandchild leaf `song` with empty children and the right
parent names — but every `art` field is the empty no-art path, because
self-search looks inside a directory (never at its siblings) and the parent
fallback searches one level up for the parent's own stem. -/
theorem populate_scenario_actual :
    populate fsC2 5 ["Music"] Node.new = (treeC2, Except.ok ()) := by rfl

/-- C6: an I/O failure aborts the whole traversal and surfaces as the error
result: a failing `read_dir` on the processed directory propagates; a
failing entry resolution aborts the loop with the node as it stood; and a
directory child whose own listing fails stops the loop right after that
child's insertion — the remaining siblings are never processed. -/
theorem populate_io_error :
    (∀ (fs : FS) (fuel : Nat) (dir : PathBuf) (node : Node),
      fs.is_dir dir = true → fs.read_dir dir = Except.error () →
      populate fs fuel dir node = (node, Except.error ())) ∧
    (∀ (fs : FS) (rec : PathBuf → Node → Node × Except Unit Unit) (dir : PathBuf)
       (rest : List (Except Unit PathBuf)) (node : Node),
      populateEntsF fs rec dir (Except.error () :: rest) node =
        (node, Except.error ())) ∧
    (∀ (fs : FS) (fuel : Nat) (dir d : PathBuf)
       (rest : List (Except Unit PathBuf)) (node : Node),
      fs.is_dir d = true → fs.read_dir d = Except.error () →
      populateEntsF fs (populate fs fuel) dir (Except.ok d :: rest) node =
        (Node.insert node (PathBuf.fileStem d)
          (Entry.mk d (update_art fs d) (PathBuf.fileStem dir) Node.new),
         Except.error ())) := by
  refine ⟨?_, ?_, ?_⟩
  · intro fs fuel dir node hd hr
    cases fuel with
    | zero => simp [populate, hd]
    | succ m => simp [populate, hd, hr]
  · intro fs rec dir rest node
    rfl
  · intro fs fuel dir d rest node hd hr
    have hpop : populate fs fuel d Node.new = (Node.new, Except.error ()) := by
      cases fuel with
      | zero => simp [populate, hd]
      | succ m => simp [populate, hd, hr]
    rw [entsF_dir_step fs (populate fs fuel) dir d rest node hd, hpop]

/-- The filesystem of the C6 witness: listing `r` succeeds with the
directory `bad` followed by the audio file `later.mp3`, but listing `bad`
itself fails. -/
def fsErr : FS :=
  FS.mk
    (fun p => decide (p = ["r"] ∨ p = ["r", "bad"]))
    (fun _ => false)
    (fun p =>
      if p = ["r"] then
        Except.ok [Except.ok ["r", "bad"], Except.ok ["r", "later.mp3"]]
      else Except.error ())

/-- C6 witness: the failing subdirectory `bad` is inserted, the traversal
aborts with an error, and the later sibling `later.mp3` never becomes an
entry; the inner traversal of `bad` itself reports the failure. -/
theorem populate_io_error_witness :
    populateEntsF fsErr (populate fsErr 2) ["r"]
        [Except.ok ["r", "bad"], Except.ok ["r", "later.mp3"]] Node.new =
      (Node.insert Node.new (PathBuf.fileStem ["r", "bad"])
        (Entry.mk ["r", "bad"] (update_art fsErr ["r", "bad"])
          (PathBuf.fileStem ["r"]) Node.new),
       Except.error ()) ∧
    populate fsErr 2 ["r", "bad"] Node.new = (Node.new, Except.error ()) := by
  have h := populate_io_error
  exact ⟨h.2.2 fsErr 2 ["r"] ["r", "bad"] [Except.ok ["r", "later.mp3"]] Node.new
      (by rfl) (by rfl),
    h.1 fsErr 2 ["r", "bad"] Node.new (by rfl) (by rfl)⟩

/-- C7: for a root that is not a directory, `populate` returns `Ok(())` and
leaves the node untouched, for every fuel bound. -/
theorem populate_nondir (fs : FS) (fuel : Nat) (dir : PathBuf) (node : Node)
    (hd : fs.is_dir dir = false) :
    populate fs fuel dir node = (node, Except.ok ()) := by
  cases fuel with
  | zero => simp [populate, hd]
  | succ m => simp [populate, hd]

/-- C7 witness: a nonexistent root produces an empty tree and success. -/
theorem populate_nondir_witness :
    populate fsW5 3 ["nowhere"] Node.new = (Node.new, Except.ok ()) :=
  populate_nondir fsW5 3 ["nowhere"] Node.new (by rfl)

/-- C8: every entry at any depth of a tree built by `populate` carries as
`parent` the file stem (lossy-decoded display name) of the directory whose
enumeration inserted it — never a value propagated from the grandparent. -/
theorem populate_parent_name (fs : FS) (fuel : Nat) (dir : PathBuf)
    (pe : PathBuf × Entry)
    (h : Deep dir (populate fs fuel dir Node.new).fst pe) :
    Entry.parent pe.2 = PathBuf.fileStem pe.1 :=
  (populate_ok fs fuel dir Node.new (TreeOk_nil fs dir) pe h).1

/-- C8 witness: in the C2 scenario tree, the `ArtistA` entry (immediately
contained in `Music`) has parent name `Music`. -/
theorem populate_parent_name_witness :
    Entry.parent entArtist = PathBuf.fileStem ["Music"] :=
  populate_parent_name fsC2 5 ["Music"] (["Music"], entArtist)
    (Deep.here ["Music"] (populate fsC2 5 ["Music"] Node.new).fst "ArtistA" entArtist
      (by rfl))

/-- C9: every entry at any depth of a tree built by `populate` whose source
path is not a directory (a leaf audio file) has an empty `children`
mapping; moreover the loop body performs no recursive call at all on a
non-directory entry — it proceeds directly to the remaining siblings. -/
theorem populate_leaf_children :
    (∀ (fs : FS) (fuel : Nat) (dir : PathBuf) (pe : PathBuf × Entry),
      Deep dir (populate fs fuel dir Node.new).fst pe →
      fs.is_dir (Entry.src pe.2) = false → Entry.child pe.2 = Node.new) ∧
    (∀ (fs : FS) (rec : PathBuf → Node → Node × Except Unit Unit)
       (dir p : PathBuf) (rest : List (Except Unit PathBuf)) (node : Node),
      fs.is_dir p = false →
      populateEntsF fs rec dir (Except.ok p :: rest) node =
        populateEntsF fs rec dir rest
          (if audio_exts.contains (PathBuf.extensionD p)
           then Node.insert node (PathBuf.fileStem p)
             (Entry.mk p (update_art fs p) (PathBuf.fileStem dir) Node.new)
           else node)) := by
  constructor
  · intro fs fuel dir pe h hleaf
    exact (populate_ok fs fuel dir Node.new (TreeOk_nil fs dir) pe h).2 hleaf
  · intro fs rec dir p rest node hd
    exact entsF_file_step fs rec dir p rest node hd

/-- C9 witness: the `song.mp3` leaf deep inside the C2 scenario tree has
empty children, and the skipped non-audio sibling `ArtistA.png` leaves the
node untouched with no recursion. -/
theorem populate_leaf_children_witness :
    Entry.child entSong = Node.new ∧
    populateEntsF fsC2 recW ["Music"] [Except.ok ["Music", "ArtistA.png"]] Node.new =
      (Node.new, Except.ok ()) := by
  constructor
  · exact populate_leaf_children.1 fsC2 5 ["Music"]
      (["Music", "ArtistA", "Album1"], entSong)
      (Deep.nest ["Music"] (populate fsC2 5 ["Music"] Node.new).fst "ArtistA" entArtist
        (["Music", "ArtistA", "Album1"], entSong) (by rfl)
        (Deep.nest (Entry.src entArtist) (Entry.child entArtist) "Album1" entAlbum
          (["Music", "ArtistA", "Album1"], entSong) (by rfl)
          (Deep.here (Entry.src entAlbum) (Entry.child entAlbum) "song" entSong
            (by rfl))))
      (by rfl)
  · exact (populate_leaf_children.2 fsC2 recW ["Music"] ["Music", "ArtistA.png"] []
      Node.new (by rfl)).trans (by rfl)

/-- C10: looking up the key just inserted always succeeds with the inserted
entry, so the `unwrap_or(&mut Entry::default())` fallback after
`node.get_mut(&name)` is unreachable: the directory branch of the loop is
exactly "insert the child entry, recurse on that entry's (empty) children,
and install the result into the entry that sits in the tree" — never into a
discarded temporary. -/
theorem populate_getmut :
    (∀ (n : Node) (k : String) (e : Entry),
      Node.find? (Node.insert n k e) k = some e) ∧
    (∀ (fs : FS) (rec : PathBuf → Node → Node × Except Unit Unit)
       (dir p : PathBuf) (rest : List (Except Unit PathBuf)) (node : Node),
      fs.is_dir p = true →
      populateEntsF fs rec dir (Except.ok p :: rest) node =
        match (rec p Node.new).snd with
        | Except.error er =>
          (Node.insert node (PathBuf.fileStem p)
            (Entry.mk p (update_art fs p) (PathBuf.fileStem dir)
              (rec p Node.new).fst),
           Except.error er)
        | Except.ok _ =>
          populateEntsF fs rec dir rest
            (Node.insert node (PathBuf.fileStem p)
              (Entry.mk p (update_art fs p) (PathBuf.fileStem dir)
                (rec p Node.new).fst))) :=
  ⟨find?_insert_self,
   fun fs rec dir p rest node hd => entsF_dir_step fs rec dir p rest node hd⟩

/-- C10 witness: lookup-after-insert succeeds on a concrete node, and the
directory branch runs the recursion on the inserted entry's children for
the concrete failing directory `r/bad`. -/
theorem populate_getmut_witness :
    Node.find? (Node.insert Node.new "a" Entry.default) "a" = some Entry.default ∧
    populateEntsF fsErr (populate fsErr 1) ["r"] [Except.ok ["r", "bad"]] Node.new =
      ([("bad", Entry.mk ["r", "bad"] PathBuf.empty "r" Node.new)],
       Except.error ()) := by
  constructor
  · exact populate_getmut.1 Node.new "a" Entry.default
  · exact (populate_getmut.2 fsErr (populate fsErr 1) ["r"] ["r", "bad"] [] Node.new
      (by rfl)).trans (by rfl)
